import Mathlib

/-!
Verification development for a small download-orchestrator program that
wraps an external command-line video downloader.  The repository holds two
near-duplicate variants of the orchestrator: the current one
(`src/youtube_downloader.py`, modelled below by the definitions without a
suffix or with `download_main`-style names) and an archived one
(`src/archieve/youtube_downloader.py`, modelled by the `_arch` variants).

The embedding is shallow: the pure parsing helpers become Lean functions on
`List Char` / `String`, the subprocess-driving loop becomes a function of an
explicit run environment (output lines, exit code, captured standard error,
and the point at which the cooperative cancel flag is first observed set),
and the GUI-side effects are abstracted into small result types
(`Outcome`, `GateAction`).  Regular-expression searches are modelled by
deterministic scanners; this is faithful because in every pattern used by
the program each greedy quantifier is followed by a character class disjoint
from its own, so backtracking can never change the match.  Character
classes are modelled at ASCII level, matching the ASCII fragment of
Python's `\d`, `\s`, `\w`.
-/

/-- ASCII model of the regex class backslash-d: the decimal digits. -/
def isDigitC (c : Char) : Bool := 48 ≤ c.toNat && c.toNat ≤ 57

/-- ASCII model of the regex class backslash-s: space, tab, LF, VT, FF, CR. -/
def isSpaceC (c : Char) : Bool := c.toNat == 32 || (9 ≤ c.toNat && c.toNat ≤ 13)

/-- ASCII letters. -/
def isAlphaC (c : Char) : Bool :=
  (97 ≤ c.toNat && c.toNat ≤ 122) || (65 ≤ c.toNat && c.toNat ≤ 90)

/-- ASCII model of the regex class backslash-w: letters, digits, underscore. -/
def isWordC (c : Char) : Bool := isDigitC c || isAlphaC c || c.toNat == 95

/-- ASCII model of Python `str.strip()` whitespace. -/
def isPySpace (c : Char) : Bool := isSpaceC c

/-- ASCII model of Python `str.lower` on a single character. -/
def lowerChar (c : Char) : Char :=
  if 65 ≤ c.toNat && c.toNat ≤ 90 then Char.ofNat (c.toNat + 32) else c

/-- ASCII model of Python `str.lower`. -/
def lowerStr (s : String) : String := String.mk (s.toList.map lowerChar)

/-- Python `str.strip()` (ASCII whitespace model). -/
def pyStrip (s : String) : String :=
  String.mk (((s.toList.dropWhile isPySpace).reverse.dropWhile isPySpace).reverse)

/-- Value of a digit string, as `int()` of the matched group. -/
def natOfDigits (l : List Char) : Nat :=
  l.foldl (fun n c => 10 * n + (c.toNat - 48)) 0

/-- Exact decimal value of `float("<d1>.<d2>")` for digit groups `d1`, `d2`. -/
def decVal (d1 d2 : List Char) : ℚ :=
  (natOfDigits d1 : ℚ) + (natOfDigits d2 : ℚ) / (10 : ℚ) ^ d2.length

/-- Boolean test that `needle` occurs at the very front of `hay`. -/
def prefOf : List Char → List Char → Bool
  | [], _ => true
  | _ :: _, [] => false
  | c :: cs, a :: as => a == c && prefOf cs as

/-- Boolean test that `suf` occurs at the very end of `s`
(Python `str.endswith`). -/
def sufOf (suf s : List Char) : Bool := prefOf suf.reverse s.reverse

/-- Python substring containment `needle in hay`. -/
def inStr (needle : List Char) : List Char → Bool
  | [] => prefOf needle []
  | hay@(_ :: t) => prefOf needle hay || inStr needle t

/-- Strip the literal `lit` from the front of `s`, if present. -/
def dropLit : List Char → List Char → Option (List Char)
  | [], s => some s
  | _ :: _, [] => none
  | c :: cs, a :: s => if a == c then dropLit cs s else none

/-- Worker for `splitOnChar`. -/
def splitOnCharAux (sep : Char) : List Char → List Char → List (List Char)
  | [], acc => [acc.reverse]
  | c :: t, acc =>
    if c == sep then acc.reverse :: splitOnCharAux sep t []
    else splitOnCharAux sep t (c :: acc)

/-- Python `str.split(sep)` for a one-character separator
(keeps empty pieces, exactly like `output.split(chr)` in the source). -/
def splitOnChar (sep : Char) (l : List Char) : List (List Char) :=
  splitOnCharAux sep l []

/-- Leftmost regex search: try the pattern attempt `f` at every suffix,
from the left, as `re.search` does. -/
def scanFirst {α : Type} (f : List Char → Option α) : List Char → Option α
  | [] => f []
  | s@(_ :: t) =>
    match f s with
    | some r => some r
    | none => scanFirst f t

/-- Rightmost-preferred search, modelling a greedy `.*` before the pattern:
the attempt at the latest position wins, as the engine backtracks leftward. -/
def scanLast {α : Type} (f : List Char → Option α) : List Char → Option α
  | [] => f []
  | s@(_ :: t) =>
    match scanLast f t with
    | some r => some r
    | none => f s

/-- Group 3 of the format-listing pattern: the alternation of a
WIDTHxHEIGHT resolution and the literal "audio only", tried in that
order as in `(\d+x\d+|audio only)`. -/
def audioAt (r : List Char) : Option String :=
  if prefOf "audio only".toList r then some "audio only" else none

/-- Resolution alternation at a fixed position (forced greedy munch:
digits, the letter x, digits; otherwise the "audio only" literal). -/
def res3 (r : List Char) : Option String :=
  if (r.takeWhile isDigitC).isEmpty then audioAt r
  else
    match r.dropWhile isDigitC with
    | 'x' :: rb =>
      if (rb.takeWhile isDigitC).isEmpty then audioAt r
      else some (String.mk (r.takeWhile isDigitC ++ 'x' :: rb.takeWhile isDigitC))
    | _ => audioAt r

/-- One anchored attempt of `re.search(r'(\d+)\s+(\w+)\s+(\d+x\d+|audio only)', line)`
at a fixed position.  Every quantifier is followed by a disjoint class, so
the greedy maximal munch is the only possible parse. -/
def formatAt (s : List Char) : Option (String × String × String) :=
  let d1 := s.takeWhile isDigitC
  let r1 := s.dropWhile isDigitC
  if d1.isEmpty then none else
  let sp1 := r1.takeWhile isSpaceC
  let r2 := r1.dropWhile isSpaceC
  if sp1.isEmpty then none else
  let w := r2.takeWhile isWordC
  let r3 := r2.dropWhile isWordC
  if w.isEmpty then none else
  let sp2 := r3.takeWhile isSpaceC
  let r4 := r3.dropWhile isSpaceC
  if sp2.isEmpty then none else
  match res3 r4 with
  | some res => some (String.mk d1, String.mk w, res)
  | none => none

/-- The format-line match of `parse_formats`: leftmost search of the
listing pattern over one line. -/
def findFormat (line : List Char) : Option (String × String × String) :=
  scanFirst formatAt line

/-- Current variant `parse_formats`: every matching line contributes an
entry `(format_id, extension, resolution)`, in input order, no dedup. -/
def parse_formats (output : String) : List (String × String × String) :=
  (splitOnChar '\n' output.toList).filterMap findFormat

/-- Deduplication key used by the archived variant: `(resolution, extension)`. -/
def keyOf (e : String × String × String) : String × String := (e.2.2, e.2.1)

/-- Worker for the archived `parse_formats`: the `seen` set of keys is
threaded through the traversal, first occurrence of a key is kept. -/
def parseFormatsArchAux : List (List Char) → List (String × String) → List (String × String × String)
  | [], _ => []
  | line :: rest, seen =>
    match findFormat line with
    | none => parseFormatsArchAux rest seen
    | some e =>
      if keyOf e ∈ seen then parseFormatsArchAux rest seen
      else e :: parseFormatsArchAux rest (keyOf e :: seen)

/-- Archived variant `parse_formats`: dedup by `(resolution, extension)`,
first-seen entry kept, input order preserved. -/
def parse_formats_arch (output : String) : List (String × String × String) :=
  parseFormatsArchAux (splitOnChar '\n' output.toList) []

/-- The format-listing example used in the specification. -/
def specFormatExample : String := "140 m4a audio only\n22 mp4 1280x720\n22 mp4 1280x720"

/-- One anchored attempt of the percentage pattern `(\d+\.\d+)%` at a fixed
position, returning the two digit groups and the remainder after the
percent sign.  Digits, the dot and the percent sign are pairwise disjoint,
so the greedy munch is forced. -/
def percentAt (s : List Char) : Option ((List Char × List Char) × List Char) :=
  if (s.takeWhile isDigitC).isEmpty then none
  else
    match s.dropWhile isDigitC with
    | a :: r2 =>
      if a = '.' then
        if (r2.takeWhile isDigitC).isEmpty then none
        else
          match r2.dropWhile isDigitC with
          | b :: rest =>
            if b = '%' then some ((s.takeWhile isDigitC, r2.takeWhile isDigitC), rest)
            else none
          | [] => none
      else none
    | [] => none

/-- Leftmost search of `(\d+\.\d+)%` over a line, as in the archived
variant's `re.search(r'(\d+\.\d+)%', line)`. -/
def searchPercent (l : List Char) : Option ((List Char × List Char) × List Char) :=
  scanFirst percentAt l

/-- Anchored attempt of `\d+:\d+`, the ETA group of the current variant. -/
def etaNumAt (r : List Char) : Option (List Char) :=
  if (r.takeWhile isDigitC).isEmpty then none
  else
    match r.dropWhile isDigitC with
    | ':' :: r2 =>
      if (r2.takeWhile isDigitC).isEmpty then none
      else some (r.takeWhile isDigitC ++ ':' :: r2.takeWhile isDigitC)
    | _ => none

/-- Anchored attempt of `ETA (\d+:\d+)` (current variant). -/
def etaMainAt (s : List Char) : Option (List Char) :=
  match dropLit "ETA ".toList s with
  | some r => etaNumAt r
  | none => none

/-- Anchored attempt of `ETA (\S+)` (archived variant). -/
def etaArchAt (s : List Char) : Option (List Char) :=
  match dropLit "ETA ".toList s with
  | some r =>
    if (r.takeWhile (fun c => !isSpaceC c)).isEmpty then none
    else some (r.takeWhile (fun c => !isSpaceC c))
  | none => none

/-- Leftmost search of `ETA (\S+)` over the whole line (archived variant). -/
def searchEtaArch (l : List Char) : Option (List Char) := scanFirst etaArchAt l

/-- Search of `re.search(r'(\d+\.\d+)%.*ETA (\d+:\d+)', line)`: leftmost
start for the percentage part; the greedy dot-star picks the rightmost ETA
occurrence after it, and the dot cannot cross a newline. -/
def searchProgressMain : List Char → Option ((List Char × List Char) × List Char)
  | [] => none
  | s@(_ :: t) =>
    match percentAt s with
    | some (g, rest) =>
      match scanLast etaMainAt (rest.takeWhile (fun c => !(c == '\n'))) with
      | some e => some (g, e)
      | none => searchProgressMain t
    | none => searchProgressMain t

/-- The progress datum pushed to the UI: the parsed percentage (exact
decimal value of the matched group) and the ETA text. -/
structure ProgressEvent where
  percent : ℚ
  eta : String
deriving DecidableEq

/-- Current variant `parse_output`: a line must carry the "[download]"
marker and match the combined percentage-then-ETA pattern to emit a
progress event. -/
def parse_output (line : String) : Option ProgressEvent :=
  if inStr "[download]".toList line.toList then
    match searchProgressMain line.toList with
    | some ((d1, d2), e) => some ⟨decVal d1 d2, String.mk e⟩
    | none => none
  else none

/-- Anchored attempt of `Downloading video (\d+) of (\d+)` (archived
variant's playlist-progress pattern). -/
def videoOfAt (s : List Char) : Option (Nat × Nat) :=
  match dropLit "Downloading video ".toList s with
  | none => none
  | some r =>
    if (r.takeWhile isDigitC).isEmpty then none
    else
      match dropLit " of ".toList (r.dropWhile isDigitC) with
      | none => none
      | some r2 =>
        if (r2.takeWhile isDigitC).isEmpty then none
        else some (natOfDigits (r.takeWhile isDigitC), natOfDigits (r2.takeWhile isDigitC))

/-- Leftmost search of the playlist-progress pattern. -/
def searchVideoOf (l : List Char) : Option (Nat × Nat) := scanFirst videoOfAt l

/-- The archived variant's playlist counters (`current_video`,
`total_videos`), mutated by `parse_output`. -/
structure ArchState where
  current_video : Nat
  total_videos : Nat
deriving DecidableEq

/-- Archived variant `parse_output`: on a "[download]" line it may update
the playlist counters, then emits a progress event whenever the percentage
pattern matches; the ETA falls back to the literal "Unknown" when
`ETA (\S+)` does not match. -/
def parse_output_arch (st : ArchState) (line : String) : ArchState × Option ProgressEvent :=
  if inStr "[download]".toList line.toList then
    let st' :=
      if inStr "Downloading video".toList line.toList then
        match searchVideoOf line.toList with
        | some (a, b) => { current_video := a, total_videos := b }
        | none => st
      else st
    match searchPercent line.toList with
    | some ((d1, d2), _) =>
      let eta :=
        match searchEtaArch line.toList with
        | some e => String.mk e
        | none => "Unknown"
      (st', some ⟨decVal d1 d2, eta⟩)
    | none => (st', none)
  else (st, none)

/-- The reported outcome of one download run, per the specification's
DownloadOutcome: `Completed` abstracts the success report
(`on_download_complete`), `Failed` the failure report with its message,
`Cancelled` a run ended by the cooperative stop flag with neither report. -/
inductive Outcome where
  | Completed : Outcome
  | Cancelled : Outcome
  | Failed : String → Outcome
deriving DecidableEq

/-- Environment of one download run: the child's stdout lines in arrival
order, its exit code, the text readable from its stderr pipe, and the
index of the first flag check at which `stop_download.is_set()` returns
true (`none` when the flag is never set during the run; the threading
Event is set once and never cleared within a run, so observations are
monotone). -/
structure RunEnv where
  lines : List String
  exitCode : Int
  errText : String
  cancelFrom : Option Nat
deriving DecidableEq

/-- Truth value of the k-th `is_set()` check for a given set point. -/
def flagOf (cancelFrom : Option Nat) (k : Nat) : Bool :=
  match cancelFrom with
  | none => false
  | some c => decide (c ≤ k)

/-- Observable result of one run: the reported outcome, the stdout lines
handed to `parse_output`, and whether `process.terminate()` was called. -/
structure RunResult where
  outcome : Outcome
  parsed : List String
  terminated : Bool
deriving DecidableEq

/-- The shared reading loop of both `start_download_process` variants:
each iteration reads one line, checks the stop flag (check `k`), and
either terminates-and-breaks or hands the line to `parse_output`.
Returns the parsed lines and whether the loop broke on the flag. -/
def mainLoop (flag : Nat → Bool) : List String → Nat → List String × Bool
  | [], _ => ([], false)
  | l :: ls, k =>
    if flag k then ([], true)
    else
      let r := mainLoop flag ls (k + 1)
      (l :: r.1, r.2)

/-- Current variant `start_download_process`: after the loop it reports
completion whenever the stop flag is not set — it never waits for the
process and never inspects the exit code or stderr.  (The exceptional
path of the surrounding try/except is outside this model.) -/
def runMain (env : RunEnv) : RunResult :=
  let r := mainLoop (flagOf env.cancelFrom) env.lines 0
  if r.2 then ⟨Outcome.Cancelled, r.1, true⟩
  else if flagOf env.cancelFrom r.1.length then ⟨Outcome.Cancelled, r.1, false⟩
  else ⟨Outcome.Completed, r.1, false⟩

/-- Archived variant `start_download_process`: after the loop it waits for
the process, then reports `Completed` on exit code 0 with the flag unset,
`Failed` with the stderr text on a non-zero code with the flag unset, and
nothing (i.e. `Cancelled`) when the flag is set.  The post-wait check is
one check later than the breaking check when the loop broke. -/
def runArch (env : RunEnv) : RunResult :=
  let r := mainLoop (flagOf env.cancelFrom) env.lines 0
  let post := flagOf env.cancelFrom (r.1.length + (if r.2 then 1 else 0))
  if env.exitCode = 0 ∧ post = false then ⟨Outcome.Completed, r.1, r.2⟩
  else if env.exitCode ≠ 0 ∧ post = false then ⟨Outcome.Failed env.errText, r.1, r.2⟩
  else ⟨Outcome.Cancelled, r.1, r.2⟩

/-- The options record built from the form, as in the `DownloadOptions`
dataclass shared by both variants. -/
structure DownloadOptions where
  url : String
  quality : String
  format : String
  filename : String
  output_path : String
  subtitle : Bool
deriving DecidableEq

/-- Current variant `build_yt_dlp_command`. -/
def build_yt_dlp_command (o : DownloadOptions) : List String :=
  let cmd := ["yt-dlp", "-f", o.format, "-o", o.filename, "--newline"]
  let cmd := if o.subtitle then cmd ++ ["--write-auto-sub", "--sub-lang", "en"] else cmd
  cmd ++ [o.url]

/-- Archived variant `build_yt_dlp_command`; `is_playlist` is the
instance flag set by the playlist-info fetch. -/
def build_yt_dlp_command_arch (is_playlist : Bool) (o : DownloadOptions) : List String :=
  let cmd := ["yt-dlp", "-f", o.format, "-o", o.filename]
  let cmd := cmd ++ (if is_playlist then ["--yes-playlist"] else ["--no-playlist"])
  let cmd := if o.subtitle then cmd ++ ["--write-auto-sub", "--sub-lang", "en"] else cmd
  cmd ++ [o.url]

/-- The download-mode argument list exactly as the claim under test
describes it: tool, format selector, output template, subtitle arguments
when requested, then one playlist flag, then the URL, nothing else.
This definition follows the specification's words, for comparison with
the two builders taken from the source. -/
def claimedCommand (playlistFlag : Bool) (o : DownloadOptions) : List String :=
  ["yt-dlp", "-f", o.format, "-o", o.filename]
    ++ (if o.subtitle then ["--write-auto-sub", "--sub-lang", "en"] else [])
    ++ (if playlistFlag then ["--yes-playlist"] else ["--no-playlist"])
    ++ [o.url]

/-- POSIX `os.path.join` restricted to two arguments, as used by
`get_filename`. -/
def joinPath (a b : String) : String :=
  if prefOf ['/'] b.toList then b
  else if a = "" ∨ sufOf ['/'] a.toList then a ++ b
  else a ++ "/" ++ b

/-- Current variant `get_filename`: a non-placeholder custom filename gets
a ".mp4" suffix unless it already ends in ".mp4" case-insensitively, and
is joined to the download location; otherwise the title-based template is
used. -/
def get_filename (download_location entry_text : String) : String :=
  let user := pyStrip entry_text
  if user ≠ "" ∧ user ≠ "Enter custom filename (optional)" then
    let user2 := if sufOf ".mp4".toList (lowerStr user).toList then user else user ++ ".mp4"
    joinPath download_location user2
  else joinPath download_location "%(title)s.%(ext)s"

/-- Components of `urllib.parse.urlparse` needed by the URL validators. -/
structure UrlParts where
  scheme : String
  netloc : String
  path : String
  query : String
  fragment : String
deriving DecidableEq

/-- Characters allowed after the first one in a URL scheme. -/
def schemeCharB (c : Char) : Bool :=
  isAlphaC c || isDigitC c || c == '+' || c == '-' || c == '.'

/-- Scheme split of `urlsplit`: the text before the first colon is a
scheme when the colon is not first, the head is an ASCII letter and every
character before the colon is a scheme character; the scheme is
lowercased.  (CPython 3.11 semantics.) -/
def splitScheme (u : List Char) : List Char × List Char :=
  match u.findIdx? (fun c => c == ':') with
  | none => ([], u)
  | some i =>
    if 0 < i ∧ (match u with | c :: _ => isAlphaC c | [] => false) = true
        ∧ (u.take i).all schemeCharB = true then
      ((u.take i).map lowerChar, u.drop (i + 1))
    else ([], u)

/-- Split the input at the first occurrence of `c`, dropping it
(Python `s.split(c, 1)`); the second piece is empty when `c` is absent. -/
def splitAtFirst (c : Char) : List Char → List Char × List Char
  | [] => ([], [])
  | a :: t =>
    if a == c then ([], t)
    else
      let r := splitAtFirst c t
      (a :: r.1, r.2)

/-- Parameter split of `urlparse`: drop a `;params` suffix of the last
path segment.  (Also covers the no-slash case, searching from index 0.) -/
def splitParams (p : List Char) : List Char :=
  let st :=
    match p.reverse.findIdx? (fun c => c == '/') with
    | some j => p.length - 1 - j
    | none => 0
  match (p.drop st).findIdx? (fun c => c == ';') with
  | some i => p.take (st + i)
  | none => p

/-- Model of `urllib.parse.urlparse` (CPython 3.11, ASCII): leading
C0-control and space characters are stripped, tab, CR and LF are removed
everywhere, the scheme and the `//`-introduced netloc are split off, a
mismatched square bracket in the netloc raises `ValueError` (modelled as
`none`), then fragment and query are split at the first `#` and
`?`.  The NFKC netloc check and the bracketed-host validation concern
non-ASCII or bracketed hosts only and are not modelled. -/
def pyUrlparse (url : String) : Option UrlParts :=
  let u0 := url.toList.dropWhile (fun c => decide (c.toNat ≤ 32))
  let u1 := u0.filter (fun c => !(c == '\t' || c == '\r' || c == '\n'))
  let sr := splitScheme u1
  let nr :=
    match sr.2 with
    | '/' :: '/' :: r =>
      (r.takeWhile (fun c => !(c == '/' || c == '?' || c == '#')),
       r.dropWhile (fun c => !(c == '/' || c == '?' || c == '#')))
    | rest => ([], rest)
  if (nr.1.contains '[' != nr.1.contains ']') then none else
  let fr := splitAtFirst '#' nr.2
  let qr := splitAtFirst '?' fr.1
  some ⟨String.mk sr.1, String.mk nr.1, String.mk (splitParams qr.1),
        String.mk qr.2, String.mk fr.2⟩

/-- Split a query field at its first `=`, if any. -/
def splitEq (part : List Char) : Option (List Char × List Char) :=
  match part.findIdx? (fun c => c == '=') with
  | none => none
  | some i => some (part.take i, part.drop (i + 1))

/-- Membership of a key in `urllib.parse.parse_qs` of a query string:
fields are split at `&`, a field without `=` or with an empty value is
dropped, and the key must match.  (Percent- and plus-decoding of field
names is not modelled; the key in scope, "list", is plain.) -/
def queryHasKey (q key : List Char) : Bool :=
  (splitOnChar '&' q).any fun part =>
    match splitEq part with
    | none => false
    | some nv => nv.1 == key && !nv.2.isEmpty

/-- Current variant `is_valid_youtube_url`: scheme and netloc non-empty
and "youtube.com" a substring of the netloc; a parse error yields false. -/
def is_valid_youtube_url (url : String) : Bool :=
  match pyUrlparse url with
  | none => false
  | some r =>
    !(r.scheme == "") && !(r.netloc == "") && inStr "youtube.com".toList r.netloc.toList

/-- Archived variant `is_valid_youtube_url`: the same gate, then a
playlist path needs a non-empty `list` query key and a watch path is a
video; anything else is invalid.  Returns (validity, url type). -/
def is_valid_youtube_url_arch (url : String) : Bool × String :=
  match pyUrlparse url with
  | none => (false, "")
  | some r =>
    if !(r.scheme == "") && !(r.netloc == "") && inStr "youtube.com".toList r.netloc.toList then
      if inStr "/playlist".toList r.path.toList then
        (queryHasKey r.query.toList "list".toList, "playlist")
      else if inStr "/watch".toList r.path.toList then (true, "video")
      else (false, "")
    else (false, "")

/-- What an operation does with the submitted URL: surface the
invalid-input error, or spawn a subprocess with the given argument list. -/
inductive GateAction where
  | invalidInput : GateAction
  | spawn : List String → GateAction
deriving DecidableEq

/-- Current variant `fetch_available_formats`: validate the stripped URL;
only a valid one reaches the worker that runs `yt-dlp -F <url>`. -/
def fetch_available_formats (entry : String) : GateAction :=
  if is_valid_youtube_url (pyStrip entry) then
    GateAction.spawn ["yt-dlp", "-F", pyStrip entry]
  else GateAction.invalidInput

/-- Current variant `download`: validate the stripped URL; only a valid
one reaches the worker that spawns the built command. -/
def download_main (entry : String) (o : DownloadOptions) : GateAction :=
  if is_valid_youtube_url (pyStrip entry) then GateAction.spawn (build_yt_dlp_command o)
  else GateAction.invalidInput

/-- Archived variant `fetch_formats` gate. -/
def fetch_formats_arch (entry : String) : GateAction :=
  if (is_valid_youtube_url_arch (pyStrip entry)).1 then
    GateAction.spawn ["yt-dlp", "-F", pyStrip entry]
  else GateAction.invalidInput

/-- Archived variant `download` gate. -/
def download_arch (entry : String) (pl : Bool) (o : DownloadOptions) : GateAction :=
  if (is_valid_youtube_url_arch (pyStrip entry)).1 then
    GateAction.spawn (build_yt_dlp_command_arch pl o)
  else GateAction.invalidInput

/-- The hypothesis of the URL-rejection claim, as a computable predicate
on the parse of the URL: no scheme, no host, or a host not containing
"youtube.com" (a parse error counts as rejected input too). -/
def badParseB (u : String) : Bool :=
  match pyUrlparse u with
  | none => true
  | some r =>
    r.scheme == "" || r.netloc == "" || !(inStr "youtube.com".toList r.netloc.toList)

/-- One state transition of the stored format list made by a
`_fetch_formats` run in the current variant: on exit code 0 the list is
overwritten with the parse of this run's output; a non-zero exit raises
before the assignment, leaving the stored list unchanged. -/
def fetch_formats_step (st : List (String × String × String)) (rc : Int) (out : String) :
    List (String × String × String) :=
  if rc = 0 then parse_formats out else st

/-- The archived variant's `_fetch_formats` transition (`check=True`
raises before the assignment on a non-zero exit). -/
def fetch_formats_step_arch (st : List (String × String × String)) (rc : Int) (out : String) :
    List (String × String × String) :=
  if rc = 0 then parse_formats_arch out else st

/-- Result of one whole download attempt, for the retry wrapper:
success, or any exception / non-zero exit with its message. -/
inductive AttemptResult where
  | ok : AttemptResult
  | err : String → AttemptResult
deriving DecidableEq

/-- Modelled from the spec: the third variant's retry wrapper, which is
not present under src/ (both src variants run a single attempt).  Per
specification sections 4.1 and 7, the whole run is retried on any
exception or non-zero exit, up to a fixed bound of 3 attempts and with no
backoff, before terminal failure is declared.  Returns the outcome and
the number of attempts made. -/
def download_with_retries (attempt : Nat → AttemptResult) : Outcome × Nat :=
  match attempt 0 with
  | AttemptResult.ok => (Outcome.Completed, 1)
  | AttemptResult.err _ =>
    match attempt 1 with
    | AttemptResult.ok => (Outcome.Completed, 2)
    | AttemptResult.err _ =>
      match attempt 2 with
      | AttemptResult.ok => (Outcome.Completed, 3)
      | AttemptResult.err m => (Outcome.Failed m, 3)

/-- Current variant `download_thread_function`: builds the command and
calls `start_download_process` exactly once — one attempt, no retry. -/
def download_thread_function (env : RunEnv) : RunResult × Nat := (runMain env, 1)

/-- Archived variant `download_thread_function`: likewise a single call. -/
def download_thread_function_arch (env : RunEnv) : RunResult × Nat := (runArch env, 1)

/-- A concrete request with subtitles enabled, used to exercise the
command builders. -/
def optsC6 : DownloadOptions :=
  { url := "https://www.youtube.com/watch?v=x", quality := "Best available",
    format := "bestvideo+bestaudio/best", filename := "/d/%(title)s.%(ext)s",
    output_path := "/d", subtitle := true }

/-- Claim C6, counterexample: on a concrete request neither variant
builds the argument list the claim describes — the current variant's
command contains the extra `--newline` and no playlist flag, and the
archived variant puts the playlist flag before the subtitle arguments
rather than after them. -/
theorem C6_counterexample :
    build_yt_dlp_command optsC6 ≠ claimedCommand true optsC6
    ∧ build_yt_dlp_command optsC6 ≠ claimedCommand false optsC6
    ∧ build_yt_dlp_command_arch true optsC6 ≠ claimedCommand true optsC6
    ∧ "--newline" ∈ build_yt_dlp_command optsC6
    ∧ "--yes-playlist" ∉ build_yt_dlp_command optsC6
    ∧ "--no-playlist" ∉ build_yt_dlp_command optsC6 := by
  refine ⟨by decide, by decide, by decide, by decide, by decide, by decide⟩

/-- Claim C6, amended: for every request the current variant builds
exactly tool, `-f` selector, `-o` template, `--newline`, the subtitle
arguments when requested, then the URL (no playlist flag); the archived
variant builds tool, `-f` selector, `-o` template, the playlist flag,
then the subtitle arguments when requested, then the URL. -/
theorem C6_amended (o : DownloadOptions) (pl : Bool) :
    build_yt_dlp_command o =
      ["yt-dlp", "-f", o.format, "-o", o.filename, "--newline"]
        ++ (if o.subtitle then ["--write-auto-sub", "--sub-lang", "en"] else [])
        ++ [o.url]
    ∧ build_yt_dlp_command_arch pl o =
      ["yt-dlp", "-f", o.format, "-o", o.filename]
        ++ (if pl then ["--yes-playlist"] else ["--no-playlist"])
        ++ (if o.subtitle then ["--write-auto-sub", "--sub-lang", "en"] else [])
        ++ [o.url] := by
  cases hs : o.subtitle <;> cases pl <;>
    simp [build_yt_dlp_command, build_yt_dlp_command_arch, hs]

/-- Claim C7: the spec-modelled retrying variant makes at most 3 whole-run
attempts, succeeds as soon as an attempt succeeds, declares terminal
failure only after 3 failed attempts (carrying the last message), and the
two variants present in src/ make exactly one attempt. -/
theorem C7_retry_bound (attempt : Nat → AttemptResult) :
    (download_with_retries attempt).2 ≤ 3
    ∧ (attempt 0 = AttemptResult.ok →
        download_with_retries attempt = (Outcome.Completed, 1))
    ∧ (∀ m, attempt 0 = AttemptResult.err m → attempt 1 = AttemptResult.ok →
        download_with_retries attempt = (Outcome.Completed, 2))
    ∧ (∀ m0 m1 m2, attempt 0 = AttemptResult.err m0 → attempt 1 = AttemptResult.err m1 →
        attempt 2 = AttemptResult.err m2 →
        download_with_retries attempt = (Outcome.Failed m2, 3))
    ∧ (∀ env : RunEnv, (download_thread_function env).2 = 1
        ∧ (download_thread_function_arch env).2 = 1) := by
  refine ⟨?_, ?_, ?_, ?_, ?_⟩
  · rcases h0 : attempt 0 with _ | m0 <;> rcases h1 : attempt 1 with _ | m1 <;>
      rcases h2 : attempt 2 with _ | m2 <;> simp [download_with_retries, h0, h1, h2]
  · intro h; simp [download_with_retries, h]
  · intro m h0 h1; simp [download_with_retries, h0, h1]
  · intro m0 m1 m2 h0 h1 h2; simp [download_with_retries, h0, h1, h2]
  · intro env; exact ⟨rfl, rfl⟩

/-- An attempt stream whose first run fails and second run succeeds. -/
def attemptC7 : Nat → AttemptResult :=
  fun k => if k = 0 then AttemptResult.err "first try failed" else AttemptResult.ok

/-- Witness for claim C7 at a concrete attempt stream: one failure is
retried and the second success ends the run after two attempts. -/
theorem C7_witness :
    download_with_retries attemptC7 = (Outcome.Completed, 2)
    ∧ (download_with_retries attemptC7).2 ≤ 3 := by
  have h := C7_retry_bound attemptC7
  exact ⟨h.2.2.1 "first try failed" rfl rfl, h.1⟩

/-- Claim C8: whatever was stored before, a successful second
fetch-formats run (exit code 0) stores exactly the parse of its own
output — the prior result is replaced wholesale, in both variants. -/
theorem C8_second_run_replaces (st : List (String × String × String)) (rc1 : Int)
    (out1 out2 : String) :
    fetch_formats_step (fetch_formats_step st rc1 out1) 0 out2 = parse_formats out2
    ∧ fetch_formats_step_arch (fetch_formats_step_arch st rc1 out1) 0 out2 =
        parse_formats_arch out2 := by
  constructor <;> simp [fetch_formats_step, fetch_formats_step_arch]

/-- Claim C9: in the current variant, a stripped custom filename that is
non-empty and differs from the placeholder is joined to the download
location, with ".mp4" appended exactly when its lowercasing does not end
in ".mp4"; every other entry yields the title-based template joined to
the location. -/
theorem C9_custom_filename (loc entry : String) :
    (pyStrip entry ≠ "" → pyStrip entry ≠ "Enter custom filename (optional)" →
      get_filename loc entry =
        joinPath loc (if sufOf ".mp4".toList (lowerStr (pyStrip entry)).toList
                      then pyStrip entry else pyStrip entry ++ ".mp4"))
    ∧ ((pyStrip entry = "" ∨ pyStrip entry = "Enter custom filename (optional)") →
        get_filename loc entry = joinPath loc "%(title)s.%(ext)s") := by
  constructor
  · intro h1 h2
    simp only [get_filename]
    rw [if_pos ⟨h1, h2⟩]
  · intro h
    simp only [get_filename]
    rw [if_neg (by rcases h with h | h <;> simp [h])]

/-- Witness for claim C9: a padded custom name gains the ".mp4" suffix,
and an uppercase ".MP4" suffix is recognised case-insensitively. -/
theorem C9_witness :
    get_filename "/home/u/Downloads" " movie " = "/home/u/Downloads/movie.mp4"
    ∧ get_filename "/home/u/Downloads" "Clip.MP4" = "/home/u/Downloads/Clip.MP4" := by
  have h1 := (C9_custom_filename "/home/u/Downloads" " movie ").1 (by decide) (by decide)
  have h2 := (C9_custom_filename "/home/u/Downloads" "Clip.MP4").1 (by decide) (by decide)
  rw [h1, h2]
  exact ⟨by decide, by decide⟩

/-- When the cancel flag is never set, the reading loop consumes every
line and never breaks. -/
theorem mainLoop_flag_false (flag : Nat → Bool) (h : ∀ k, flag k = false) :
    ∀ (ls : List String) (k : Nat), mainLoop flag ls k = (ls, false) := by
  intro ls
  induction ls with
  | nil => intro k; rfl
  | cons l t ih => intro k; simp [mainLoop, h k, ih (k + 1)]

/-- When the cancel flag becomes set at check `c`, the loop started at
check `k ≤ c` parses exactly the next `c - k` lines and breaks exactly
when a line remains to trigger the check. -/
theorem mainLoop_cancel (c : Nat) :
    ∀ (ls : List String) (k : Nat), k ≤ c →
      mainLoop (flagOf (some c)) ls k = (ls.take (c - k), decide (c - k < ls.length)) := by
  intro ls
  induction ls with
  | nil => intro k hk; simp [mainLoop]
  | cons l t ih =>
    intro k hk
    by_cases hkc : c ≤ k
    · have hck : c = k := le_antisymm hkc hk
      have hflag : flagOf (some c) k = true := by simp [flagOf]; omega
      have hz : c - k = 0 := by omega
      simp [mainLoop, hflag, hz]
    · have hflag : flagOf (some c) k = false := by simp [flagOf]; omega
      have h1 : c - k = (c - (k + 1)) + 1 := by omega
      simp only [mainLoop, hflag, Bool.false_eq_true, if_false, ih (k + 1) (by omega), h1,
        List.take_succ_cons, List.length_cons]
      congr 1
      exact decide_eq_decide.mpr (by omega)

/-- Claim C1, amended: in the archived variant a run with the cancel flag
never set reports `Completed` exactly when the exit code is 0 and reports
`Failed` with the captured stderr text on any non-zero exit code; the
current variant, which never inspects the exit code, reports `Completed`
whenever the flag is never set, regardless of the exit code. -/
theorem C1_exit_code_outcomes (env : RunEnv) (h : env.cancelFrom = none) :
    ((runArch env).outcome = Outcome.Completed ↔ env.exitCode = 0)
    ∧ (env.exitCode ≠ 0 → (runArch env).outcome = Outcome.Failed env.errText)
    ∧ (runMain env).outcome = Outcome.Completed := by
  have hml := mainLoop_flag_false (flagOf none) (by intro k; rfl) env.lines 0
  by_cases he : env.exitCode = 0 <;>
    simp [runArch, runMain, h, hml, flagOf, he]

/-- A run whose process exits 1 with text on stderr, never cancelled. -/
def envC1 : RunEnv := ⟨["[download] 100.0% of 10MiB"], 1, "network error", none⟩

/-- Claim C1, counterexample: on a non-zero exit with no cancellation the
current variant reports `Completed`, not `Failed` with the stderr text —
the claim fails on the current variant. -/
theorem C1_counterexample :
    envC1.cancelFrom = none ∧ envC1.exitCode ≠ 0
    ∧ (runMain envC1).outcome = Outcome.Completed
    ∧ (runMain envC1).outcome ≠ Outcome.Failed envC1.errText := by
  refine ⟨rfl, by decide, by decide, by decide⟩

/-- Witness for the amended claim C1 at a concrete run: exit code 2,
stderr "boom", no cancellation. -/
theorem C1_witness :
    (runArch ⟨["line one"], 2, "boom", none⟩).outcome = Outcome.Failed "boom"
    ∧ (runMain ⟨["line one"], 2, "boom", none⟩).outcome = Outcome.Completed := by
  have h := C1_exit_code_outcomes ⟨["line one"], 2, "boom", none⟩ rfl
  exact ⟨h.2.1 (by decide), h.2.2⟩

/-- Claim C3: if the cancel flag is set and observed during the run (at
check `c`, no later than the post-loop check), both variants report
`Cancelled` — never `Completed` or `Failed`, whatever the exit code — and
when the flag is observed at a line-read boundary the process is
terminated and only the lines before that boundary were parsed. -/
theorem C3_cancelled (env : RunEnv) (c : Nat) (h1 : env.cancelFrom = some c)
    (h2 : c ≤ env.lines.length) :
    (runMain env).outcome = Outcome.Cancelled
    ∧ (runArch env).outcome = Outcome.Cancelled
    ∧ (c < env.lines.length →
        (runMain env).parsed = env.lines.take c ∧ (runMain env).terminated = true
        ∧ (runArch env).parsed = env.lines.take c ∧ (runArch env).terminated = true) := by
  have hml := mainLoop_cancel c env.lines 0 (Nat.zero_le c)
  simp only [Nat.sub_zero] at hml
  by_cases hlt : c < env.lines.length
  · have hd : decide (c < env.lines.length) = true := by simp [hlt]
    have hlen : (env.lines.take c).length = c := by
      simp only [List.length_take]; omega
    refine ⟨?_, ?_, fun _ => ⟨?_, ?_, ?_, ?_⟩⟩ <;>
      simp [runMain, runArch, h1, hml, hd, flagOf, hlen]
  · have hceq : c = env.lines.length := by omega
    have hd : decide (c < env.lines.length) = false := by simp; omega
    have htk : env.lines.take c = env.lines := by rw [hceq]; exact List.take_length env.lines
    have hlen : (env.lines.take c).length = c := by rw [htk, hceq]
    refine ⟨?_, ?_, fun hc => absurd hc (by omega)⟩ <;>
      simp [runMain, runArch, h1, hml, hd, flagOf, hlen]

/-- Witness for claim C3 at a concrete run: three output lines, exit code
0, flag observed set at check 1 — outcome `Cancelled` in both variants,
only the first line parsed, process terminated. -/
theorem C3_witness :
    (runMain ⟨["a", "b", "c"], 0, "", some 1⟩).outcome = Outcome.Cancelled
    ∧ (runArch ⟨["a", "b", "c"], 0, "", some 1⟩).outcome = Outcome.Cancelled
    ∧ (runMain ⟨["a", "b", "c"], 0, "", some 1⟩).parsed = ["a"]
    ∧ (runMain ⟨["a", "b", "c"], 0, "", some 1⟩).terminated = true := by
  have h := C3_cancelled ⟨["a", "b", "c"], 0, "", some 1⟩ 1 rfl (by decide)
  have h3 := h.2.2 (by decide)
  exact ⟨h.1, h.2.1, h3.1, h3.2.1⟩

/-- A URL whose parse lacks a scheme or host, or whose host does not
contain "youtube.com", is invalid for both variants' validators. -/
theorem is_valid_false_of_bad (u : String) (h : badParseB u = true) :
    is_valid_youtube_url u = false ∧ (is_valid_youtube_url_arch u).1 = false := by
  cases hp : pyUrlparse u with
  | none => simp [is_valid_youtube_url, is_valid_youtube_url_arch, hp]
  | some r =>
    simp only [badParseB, hp, Bool.or_eq_true] at h
    have hc : (!(r.scheme == "") && !(r.netloc == "")
        && inStr "youtube.com".toList r.netloc.toList) = false := by
      rcases h with (h | h) | h
      · simp only [h, Bool.not_true, Bool.false_and]
      · simp only [h, Bool.not_true, Bool.and_false, Bool.false_and]
      · simp only [Bool.not_eq_true'] at h
        simp only [h, Bool.and_false]
    constructor
    · simp only [is_valid_youtube_url, hp]
      exact hc
    · simp only [is_valid_youtube_url_arch, hp, hc]
      simp

/-- Claim C4: whenever the stripped URL parses without a scheme, without
a host, or with a host not containing "youtube.com" (or fails to parse at
all), both the fetch-formats gate and the download gate of both variants
surface the invalid-input error and spawn no subprocess. -/
theorem C4_invalid_rejected (entry : String) (o : DownloadOptions) (pl : Bool)
    (h : badParseB (pyStrip entry) = true) :
    fetch_available_formats entry = GateAction.invalidInput
    ∧ download_main entry o = GateAction.invalidInput
    ∧ fetch_formats_arch entry = GateAction.invalidInput
    ∧ download_arch entry pl o = GateAction.invalidInput := by
  have hv := is_valid_false_of_bad (pyStrip entry) h
  refine ⟨?_, ?_, ?_, ?_⟩ <;>
    simp [fetch_available_formats, download_main, fetch_formats_arch, download_arch,
      hv.1, hv.2]

/-- A concrete request for the URL-rejection witness. -/
def optsC4 : DownloadOptions :=
  { url := "https://example.com/watch?v=abc", quality := "Best available",
    format := "bestvideo+bestaudio/best", filename := "/d/%(title)s.%(ext)s",
    output_path := "/d", subtitle := false }

/-- Witness for claim C4 at a concrete URL whose host lacks
"youtube.com": every gate rejects it without spawning. -/
theorem C4_witness :
    fetch_available_formats " https://example.com/watch?v=abc " = GateAction.invalidInput
    ∧ download_main " https://example.com/watch?v=abc " optsC4 = GateAction.invalidInput
    ∧ fetch_formats_arch " https://example.com/watch?v=abc " = GateAction.invalidInput
    ∧ download_arch " https://example.com/watch?v=abc " false optsC4 = GateAction.invalidInput := by
  exact C4_invalid_rejected " https://example.com/watch?v=abc " optsC4 false (by decide)

/-- Invariant of the archived dedup traversal: its output is a sublist of
the undeduplicated entry list, its keys are distinct and avoid the `seen`
set, every entry key of the input is covered, and each kept entry is the
first input entry with its key. -/
theorem parseArchAux_spec :
    ∀ (lines : List (List Char)) (seen : List (String × String)),
      List.Sublist (parseFormatsArchAux lines seen) (lines.filterMap findFormat)
      ∧ ((parseFormatsArchAux lines seen).map keyOf).Nodup
      ∧ (∀ k, k ∈ (parseFormatsArchAux lines seen).map keyOf → k ∉ seen)
      ∧ (∀ e, e ∈ lines.filterMap findFormat →
          keyOf e ∈ seen ∨ keyOf e ∈ (parseFormatsArchAux lines seen).map keyOf)
      ∧ (∀ e, e ∈ parseFormatsArchAux lines seen →
          (lines.filterMap findFormat).find? (fun x => keyOf x == keyOf e) = some e) := by
  intro lines
  induction lines with
  | nil =>
    intro seen
    simp [parseFormatsArchAux]
  | cons l rest ih =>
    intro seen
    cases hf : findFormat l with
    | none =>
      have hfm : (l :: rest).filterMap findFormat = rest.filterMap findFormat := by
        simp [List.filterMap_cons, hf]
      have haux : parseFormatsArchAux (l :: rest) seen = parseFormatsArchAux rest seen := by
        simp [parseFormatsArchAux, hf]
      rw [hfm, haux]
      exact ih seen
    | some e =>
      have hfm : (l :: rest).filterMap findFormat = e :: rest.filterMap findFormat := by
        simp [List.filterMap_cons, hf]
      by_cases hm : keyOf e ∈ seen
      · have haux : parseFormatsArchAux (l :: rest) seen = parseFormatsArchAux rest seen := by
          simp [parseFormatsArchAux, hf, hm]
        rw [hfm, haux]
        obtain ⟨h1, h2, h3, h4, h5⟩ := ih seen
        refine ⟨h1.cons e, h2, h3, ?_, ?_⟩
        · intro x hx
          rcases List.mem_cons.mp hx with hx | hx
          · rw [hx]; exact Or.inl hm
          · exact h4 x hx
        · intro e' he'
          have hbe : (keyOf e == keyOf e') = false := by
            simp only [beq_eq_false_iff_ne]
            intro hkey
            exact h3 (keyOf e') (List.mem_map_of_mem keyOf he') (hkey ▸ hm)
          simp only [List.find?_cons, hbe]
          exact h5 e' he'
      · have haux : parseFormatsArchAux (l :: rest) seen
            = e :: parseFormatsArchAux rest (keyOf e :: seen) := by
          simp [parseFormatsArchAux, hf, hm]
        rw [hfm, haux]
        obtain ⟨h1, h2, h3, h4, h5⟩ := ih (keyOf e :: seen)
        refine ⟨h1.cons₂ e, ?_, ?_, ?_, ?_⟩
        · simp only [List.map_cons]
          rw [List.nodup_cons]
          exact ⟨fun hmem => (h3 (keyOf e) hmem) (List.mem_cons_self _ _), h2⟩
        · intro k hk
          simp only [List.map_cons, List.mem_cons] at hk
          rcases hk with hk | hk
          · rw [hk]; exact hm
          · intro hkseen
            exact (h3 k hk) (List.mem_cons_of_mem _ hkseen)
        · intro x hx
          rcases List.mem_cons.mp hx with hx | hx
          · rw [hx]
            exact Or.inr (by simp)
          · rcases h4 x hx with hseen | hmem
            · rcases List.mem_cons.mp hseen with hk | hk
              · exact Or.inr (by simp [hk])
              · exact Or.inl hk
            · exact Or.inr (List.mem_cons_of_mem _ hmem)
        · intro e' he'
          rcases List.mem_cons.mp he' with he' | he'
          · rw [he']
            simp only [List.find?_cons, beq_self_eq_true]
          · have hbe : (keyOf e == keyOf e') = false := by
              simp only [beq_eq_false_iff_ne]
              intro hkey
              exact (h3 (keyOf e') (List.mem_map_of_mem keyOf he'))
                (hkey ▸ List.mem_cons_self _ _)
            simp only [List.find?_cons, hbe]
            exact h5 e' he'

/-- Claim C2, counterexample: on the spec's own example the current
variant's `parse_formats` keeps the duplicate `22 mp4 1280x720` line, so
its output does not have one entry per distinct (resolution, container)
pair. -/
theorem C2_counterexample :
    parse_formats specFormatExample =
      [("140", "m4a", "audio only"), ("22", "mp4", "1280x720"), ("22", "mp4", "1280x720")]
    ∧ ¬ ((parse_formats specFormatExample).map keyOf).Nodup := by
  exact ⟨by decide, by decide⟩

/-- Claim C2, amended: the archived variant's `parse_formats` returns one
entry per distinct (resolution, container) pair of the matching lines —
its keys are distinct and cover every matched entry's key — keeping for
each pair the first-seen entry in input-line order (it is a sublist of
the undeduplicated parse, and each kept entry is the first entry with its
key); the current variant's `parse_formats` keeps every matching line
without deduplication.  On the spec's example the duplicate is dropped by
the archived variant only. -/
theorem C2_arch_dedup (output : String) :
    List.Sublist (parse_formats_arch output) (parse_formats output)
    ∧ ((parse_formats_arch output).map keyOf).Nodup
    ∧ (∀ e, e ∈ parse_formats output → keyOf e ∈ (parse_formats_arch output).map keyOf)
    ∧ (∀ e, e ∈ parse_formats_arch output →
        (parse_formats output).find? (fun x => keyOf x == keyOf e) = some e)
    ∧ parse_formats_arch specFormatExample =
        [("140", "m4a", "audio only"), ("22", "mp4", "1280x720")] := by
  obtain ⟨h1, h2, h3, h4, h5⟩ := parseArchAux_spec (splitOnChar '\n' output.toList) []
  refine ⟨h1, h2, ?_, h5, by decide⟩
  intro e he
  rcases h4 e he with hseen | hmem
  · exact absurd hseen (List.not_mem_nil _)
  · exact hmem

/-- Witness for the amended claim C2 on the spec's example: the audio
entry's key is covered, and the first `22 mp4 1280x720` entry is the one
found for its key. -/
theorem C2_witness :
    keyOf ("140", "m4a", "audio only") ∈ (parse_formats_arch specFormatExample).map keyOf
    ∧ (parse_formats specFormatExample).find?
        (fun x => keyOf x == keyOf ("22", "mp4", "1280x720")) =
      some ("22", "mp4", "1280x720") := by
  have h := C2_arch_dedup specFormatExample
  exact ⟨h.2.2.1 ("140", "m4a", "audio only") (by decide),
         h.2.2.2.1 ("22", "mp4", "1280x720") (by decide)⟩

/-- A successful literal strip decomposes the input. -/
theorem dropLit_eq : ∀ (lit s r : List Char), dropLit lit s = some r → s = lit ++ r := by
  intro lit
  induction lit with
  | nil =>
    intro s r h
    simp only [dropLit, Option.some_inj] at h
    simp [h]
  | cons c cs ih =>
    intro s r h
    cases s with
    | nil => simp [dropLit] at h
    | cons a t =>
      simp only [dropLit] at h
      by_cases hac : (a == c) = true
      · rw [if_pos hac] at h
        have ht := ih t r h
        have hac' : a = c := eq_of_beq hac
        rw [List.cons_append, ← hac', ht]
      · rw [if_neg hac] at h
        simp at h

/-- Stripping a literal off itself leaves the remainder. -/
theorem dropLit_append : ∀ (lit r : List Char), dropLit lit (lit ++ r) = some r := by
  intro lit r
  induction lit with
  | nil => rfl
  | cons c cs ih => simp [dropLit, ih]

/-- A failed leftmost search means the attempt fails at every suffix. -/
theorem scanFirst_eq_none {α : Type} (f : List Char → Option α) :
    ∀ l, scanFirst f l = none → ∀ t, t <:+ l → f t = none := by
  intro l
  induction l with
  | nil =>
    intro h t ht
    rw [List.suffix_nil.mp ht]
    exact h
  | cons c l' ih =>
    intro h t ht
    have h1 : f (c :: l') = none ∧ scanFirst f l' = none := by
      cases hf : f (c :: l') with
      | some r => simp [scanFirst, hf] at h
      | none => exact ⟨rfl, by simpa [scanFirst, hf] using h⟩
    rcases List.suffix_cons_iff.mp ht with ht | ht
    · rw [ht]; exact h1.1
    · exact ih h1.2 t ht

/-- If the attempt fails at every suffix, the rightmost-preferred search
fails. -/
theorem scanLast_eq_none {α : Type} (f : List Char → Option α) :
    ∀ l, (∀ t, t <:+ l → f t = none) → scanLast f l = none := by
  intro l
  induction l with
  | nil =>
    intro h
    simpa [scanLast] using h [] (List.suffix_refl [])
  | cons c l' ih =>
    intro h
    have h2 : scanLast f l' = none :=
      ih (fun t ht => h t (ht.trans (List.suffix_cons c l')))
    have h1 : f (c :: l') = none := h _ (List.suffix_refl _)
    simp [scanLast, h2, h1]

/-- A successful ETA-number match starts with a digit. -/
theorem etaNumAt_head (r e : List Char) (h : etaNumAt r = some e) :
    ∃ c r', r = c :: r' ∧ isDigitC c = true := by
  cases r with
  | nil => simp [etaNumAt] at h
  | cons c r' =>
    by_cases hd : isDigitC c = true
    · exact ⟨c, r', rfl, hd⟩
    · exfalso
      have hemp : ((c :: r').takeWhile isDigitC).isEmpty = true := by
        simp [List.takeWhile_cons, hd]
      unfold etaNumAt at h
      rw [if_pos hemp] at h
      simp at h

/-- A digit is not regex whitespace. -/
theorem not_space_of_digit (c : Char) (h : isDigitC c = true) : isSpaceC c = false := by
  simp only [isDigitC, Bool.and_eq_true, decide_eq_true_eq] at h
  simp only [isSpaceC, Bool.or_eq_false_iff, Bool.and_eq_false_iff, beq_eq_false_iff_ne,
    ne_eq, decide_eq_false_iff_not]
  omega

/-- If the archived ETA pattern fails at a list, the current variant's
ETA pattern fails at every prefix of it: a match of `ETA (\d+:\d+)` in
the prefix would put a digit right after "ETA ", making `ETA (\S+)`
match in the full list. -/
theorem etaMainAt_none_of_pref (p t : List Char) (hp : p <+: t) (h : etaArchAt t = none) :
    etaMainAt p = none := by
  cases hme : etaMainAt p with
  | none => rfl
  | some e =>
    exfalso
    unfold etaMainAt at hme
    cases hdl : dropLit "ETA ".toList p with
    | none => rw [hdl] at hme; simp at hme
    | some r =>
      rw [hdl] at hme
      obtain ⟨c, r', hr, hd⟩ := etaNumAt_head r e hme
      have hpe : p = "ETA ".toList ++ r := dropLit_eq _ _ _ hdl
      obtain ⟨w, hw⟩ := hp
      have ht : t = "ETA ".toList ++ (r ++ w) := by
        rw [← hw, hpe, List.append_assoc]
      have hdl2 : dropLit "ETA ".toList t = some (r ++ w) := by
        rw [ht]; exact dropLit_append _ _
      unfold etaArchAt at h
      rw [hdl2, hr] at h
      have hns : (!isSpaceC c) = true := by rw [not_space_of_digit c hd]; rfl
      simp [List.takeWhile_cons, hns] at h

/-- The remainder returned by a percentage match is a suffix of the
input. -/
theorem percentAt_suffix : ∀ (s : List Char) (g : List Char × List Char) (rest : List Char),
    percentAt s = some (g, rest) → rest <:+ s := by
  intro s g rest h
  unfold percentAt at h
  by_cases h1 : ((s.takeWhile isDigitC).isEmpty = true)
  · rw [if_pos h1] at h; simp at h
  · rw [if_neg h1] at h
    cases hdw : s.dropWhile isDigitC with
    | nil => rw [hdw] at h; simp at h
    | cons a r2 =>
      rw [hdw] at h
      dsimp only [] at h
      by_cases ha : a = '.'
      · rw [if_pos ha] at h
        by_cases h2 : ((r2.takeWhile isDigitC).isEmpty = true)
        · rw [if_pos h2] at h; simp at h
        · rw [if_neg h2] at h
          cases hdw2 : r2.dropWhile isDigitC with
          | nil => rw [hdw2] at h; simp at h
          | cons b r3 =>
            rw [hdw2] at h
            dsimp only [] at h
            by_cases hb : b = '%'
            · rw [if_pos hb] at h
              have hrest : rest = r3 := by
                simp only [Option.some_inj] at h
                exact (congrArg Prod.snd h).symm
              have s1 : rest <:+ r2 := by
                rw [hrest]
                have hsub : (b :: r3) <:+ r2 := hdw2 ▸ List.dropWhile_suffix isDigitC
                exact (List.suffix_cons b r3).trans hsub
              have s2 : r2 <:+ s := by
                have hsub : (a :: r2) <:+ s := hdw ▸ List.dropWhile_suffix isDigitC
                exact (List.suffix_cons a r2).trans hsub
              exact s1.trans s2
            · rw [if_neg hb] at h; simp at h
      · rw [if_neg ha] at h; simp at h

/-- When the archived ETA pattern matches nowhere in the whole line, the
current variant's combined percentage-then-ETA search fails on every
suffix of the line. -/
theorem searchProgressMain_eq_none (L0 : List Char) (h : searchEtaArch L0 = none) :
    ∀ L, L <:+ L0 → searchProgressMain L = none := by
  intro L
  induction L with
  | nil => intro _; rfl
  | cons c t ih =>
    intro hL
    have htL : t <:+ L0 := (List.suffix_cons c t).trans hL
    cases hpa : percentAt (c :: t) with
    | none =>
      simpa [searchProgressMain, hpa] using ih htL
    | some pr =>
      obtain ⟨g, rest⟩ := pr
      have hrs : rest <:+ (c :: t) := percentAt_suffix _ _ _ hpa
      have hseg : scanLast etaMainAt (rest.takeWhile (fun x => !(x == '\n'))) = none := by
        apply scanLast_eq_none
        intro u hu
        obtain ⟨v, hv⟩ := hu
        have hpre : rest.takeWhile (fun x => !(x == '\n')) <+: rest :=
          List.takeWhile_prefix _
        obtain ⟨w, hw⟩ := hpre
        have hrL : rest <:+ L0 := hrs.trans hL
        obtain ⟨z, hz⟩ := hrL
        have huw : (u ++ w) <:+ L0 := by
          refine ⟨z ++ v, ?_⟩
          rw [List.append_assoc, ← List.append_assoc v u w, hv, hw, hz]
        have haw : etaArchAt (u ++ w) = none :=
          scanFirst_eq_none etaArchAt L0 h (u ++ w) huw
        exact etaMainAt_none_of_pref u (u ++ w) (List.prefix_append u w) haw
      simpa [searchProgressMain, hpa, hseg] using ih htL

/-- Claim C5, counterexample: this line contains both "45.2%" and
"ETA 00:10" yet neither variant emits a progress event for it, because it
lacks the "[download]" marker both parsers require. -/
theorem C5_counterexample :
    inStr "45.2%".toList "45.2% ETA 00:10".toList = true
    ∧ inStr "ETA 00:10".toList "45.2% ETA 00:10".toList = true
    ∧ parse_output "45.2% ETA 00:10" = none
    ∧ (parse_output_arch ⟨0, 0⟩ "45.2% ETA 00:10").2 = none := by
  exact ⟨by decide, by decide, by decide, by decide⟩

/-- Claim C5, amended: the current variant emits a progress event for
exactly the lines that carry the "[download]" marker and match the
combined percentage-then-ETA pattern, and the event carries exactly the
decimal value of the matched percentage group and the matched ETA group;
a line without the marker, or without a pattern match, emits nothing. -/
theorem C5_progress_events (line : String) (d1 d2 e : List Char) :
    (inStr "[download]".toList line.toList = false → parse_output line = none)
    ∧ (searchProgressMain line.toList = none → parse_output line = none)
    ∧ (inStr "[download]".toList line.toList = true →
        searchProgressMain line.toList = some ((d1, d2), e) →
        parse_output line = some ⟨decVal d1 d2, String.mk e⟩) := by
  refine ⟨?_, ?_, ?_⟩
  · intro h
    unfold parse_output
    rw [h]
    simp
  · intro h
    unfold parse_output
    rw [h]
    simp
  · intro h1 h2
    unfold parse_output
    rw [h1, h2]
    rfl

/-- The canonical progress line of the external tool. -/
def lineC5 : String := "[download]  45.2% of 10.00MiB at 2.00MiB/s ETA 00:10"

/-- Witness for the amended claim C5: the canonical progress line yields
percent 45.2 and eta "00:10". -/
theorem C5_witness : parse_output lineC5 = some ⟨45.2, "00:10"⟩ := by
  have h := (C5_progress_events lineC5 ['4', '5'] ['2'] "00:10".toList).2.2
    (by decide) (by decide)
  rw [h]
  have h2 : natOfDigits ['4', '5'] = 45 := rfl
  have h3 : natOfDigits ['2'] = 2 := rfl
  have h4 : String.mk "00:10".toList = "00:10" := rfl
  rw [h4]
  simp [decVal, h2, h3]
  norm_num

/-- Claim C10: on a "[download]" line where the percentage pattern
matches but `ETA (\S+)` matches nowhere, the archived variant still emits
a progress event with the parsed percentage and the literal "Unknown" as
eta, while the current variant, whose single pattern requires an ETA,
emits no event at all. -/
theorem C10_eta_fallback (st : ArchState) (line : String) (d1 d2 r : List Char)
    (h1 : inStr "[download]".toList line.toList = true)
    (h2 : searchPercent line.toList = some ((d1, d2), r))
    (h3 : searchEtaArch line.toList = none) :
    (parse_output_arch st line).2 = some ⟨decVal d1 d2, "Unknown"⟩
    ∧ parse_output line = none := by
  constructor
  · unfold parse_output_arch
    rw [h1, h2, h3]
    rfl
  · have hnone := searchProgressMain_eq_none line.toList h3 line.toList (List.suffix_refl _)
    unfold parse_output
    rw [hnone]
    simp

/-- A progress line in which the tool reported no ETA. -/
def lineC10 : String := "[download]  12.5% of 10.00MiB at 1.00MiB/s"

/-- Witness for claim C10: the ETA-less line yields percent 12.5 with eta
"Unknown" in the archived variant and no event in the current one. -/
theorem C10_witness :
    (parse_output_arch ⟨0, 0⟩ lineC10).2 = some ⟨12.5, "Unknown"⟩
    ∧ parse_output lineC10 = none := by
  have h := C10_eta_fallback ⟨0, 0⟩ lineC10 ['1', '2'] ['5']
    " of 10.00MiB at 1.00MiB/s".toList (by decide) (by decide) (by decide)
  have hval : decVal ['1', '2'] ['5'] = 12.5 := by
    have h2 : natOfDigits ['1', '2'] = 12 := rfl
    have h3 : natOfDigits ['5'] = 5 := rfl
    simp [decVal, h2, h3]
    norm_num
  rw [← hval]
  exact h
